import Mathlib

/-!
Shallow embedding of the appointment-notification system
(Convex store mutations, FHIR resolver, call-status polling, phone
normalization) together with proofs of the specified properties.
-/

set_option maxHeartbeats 1000000

/-- Delivery outcome of a call attempt, as in the schema's outcome union. -/
inductive Outcome where
  | pending
  | answered
  | no_answer
  | failed
deriving DecidableEq, Repr

/-- One element of an appointment's call history (schema `callHistory`). -/
structure CallRecord where
  timestamp : String
  callSid : Option String
  outcome : Option Outcome
deriving DecidableEq, Repr

/-- A stored appointment document (schema table `appointments`). -/
structure Appointment where
  fhirId : String
  status : String
  serviceType : Option String
  start : String
  end_ : String
  created : Option String
  patientId : Option String
  patientName : Option String
  patientPhone : Option String
  contactMethod : Option String
  contacted : Option Bool
  serviceRequestId : Option String
  serviceRequestCode : Option String
  serviceRequestCategory : Option String
  organizationId : Option String
  organizationName : Option String
  callHistory : Option (List CallRecord)
deriving DecidableEq, Repr

/-- The argument object of the `appointments.upsert` mutation; note that it
has no `callHistory` field. -/
structure ApptArgs where
  fhirId : String
  status : String
  serviceType : Option String
  start : String
  end_ : String
  created : Option String
  patientId : Option String
  patientName : Option String
  patientPhone : Option String
  contactMethod : Option String
  contacted : Option Bool
  serviceRequestId : Option String
  serviceRequestCode : Option String
  serviceRequestCategory : Option String
  organizationId : Option String
  organizationName : Option String
deriving DecidableEq, Repr

/-- A stored patient document; the `patients.upsert` argument object has
exactly the same fields. -/
structure Patient where
  fhirId : String
  identifier : Option String
  givenName : String
  familyName : String
  phone : Option String
  gender : Option String
  birthDate : Option String
deriving DecidableEq, Repr

/-- The appointments table, ordered by insertion (Convex document list). -/
abbrev ApptStore := List Appointment

/-- The patients table. -/
abbrev PatStore := List Patient

namespace Appointments

/-- The `by_fhirId` index lookup followed by `.first()`: the first stored
appointment whose `fhirId` equals the argument. -/
def findByFhirId : ApptStore → String → Option Appointment
  | [], _ => none
  | a :: rest, fhirId =>
      if a.fhirId == fhirId then some a else findByFhirId rest fhirId

/-- The `ctx.db.patch(existing._id, ...)` call: replace, in place, the first
document matching the id with the patched document. -/
def patchFirst (s : ApptStore) (fhirId : String) (f : Appointment → Appointment) :
    ApptStore :=
  match s with
  | [] => []
  | a :: rest =>
      if a.fhirId == fhirId then f a :: rest else a :: patchFirst rest fhirId f

/-- Applying the `upsert` args as a patch: every field carried by the args
object is overwritten; `callHistory` is not in the args so it is untouched. -/
def applyArgs (args : ApptArgs) (a : Appointment) : Appointment :=
  { a with
    fhirId := args.fhirId
    status := args.status
    serviceType := args.serviceType
    start := args.start
    end_ := args.end_
    created := args.created
    patientId := args.patientId
    patientName := args.patientName
    patientPhone := args.patientPhone
    contactMethod := args.contactMethod
    contacted := args.contacted
    serviceRequestId := args.serviceRequestId
    serviceRequestCode := args.serviceRequestCode
    serviceRequestCategory := args.serviceRequestCategory
    organizationId := args.organizationId
    organizationName := args.organizationName }

/-- The freshly inserted document for an `upsert` that found no existing
appointment: exactly the args fields, with no `callHistory` yet. -/
def insertDoc (args : ApptArgs) : Appointment :=
  { fhirId := args.fhirId
    status := args.status
    serviceType := args.serviceType
    start := args.start
    end_ := args.end_
    created := args.created
    patientId := args.patientId
    patientName := args.patientName
    patientPhone := args.patientPhone
    contactMethod := args.contactMethod
    contacted := args.contacted
    serviceRequestId := args.serviceRequestId
    serviceRequestCode := args.serviceRequestCode
    serviceRequestCategory := args.serviceRequestCategory
    organizationId := args.organizationId
    organizationName := args.organizationName
    callHistory := none }

/-- The `appointments.upsert` mutation: patch the existing document found by
fhirId, otherwise insert a new one. -/
def upsert (args : ApptArgs) (s : ApptStore) : ApptStore :=
  match findByFhirId s args.fhirId with
  | some _ => patchFirst s args.fhirId (applyArgs args)
  | none => s ++ [insertDoc args]

/-- The `appointments.markContacted` mutation. -/
def markContacted (s : ApptStore) (fhirId : String) (contacted : Bool) : ApptStore :=
  match findByFhirId s fhirId with
  | some _ => patchFirst s fhirId (fun a => { a with contacted := some contacted })
  | none => s

/-- The `appointments.recordCall` mutation: append one pending record to the
found appointment's call history and mark it contacted. -/
def recordCall (s : ApptStore) (fhirId : String) (callSid : Option String)
    (timestamp : String) : ApptStore :=
  match findByFhirId s fhirId with
  | some appointment =>
      let currentHistory := appointment.callHistory.getD []
      let newCall : CallRecord :=
        { timestamp := timestamp, callSid := callSid, outcome := some Outcome.pending }
      patchFirst s fhirId (fun a =>
        { a with callHistory := some (currentHistory ++ [newCall]), contacted := some true })
  | none => s

/-- The `appointments.updateCallOutcome` mutation: overwrite the outcome of
the record at `callIndex` when the index is in range; otherwise do nothing.
`callIndex` is an (integer) JS number, so it may be negative. -/
def updateCallOutcome (s : ApptStore) (fhirId : String) (callIndex : Int)
    (outcome : Outcome) : ApptStore :=
  match findByFhirId s fhirId with
  | some appointment =>
      match appointment.callHistory with
      | some history =>
          if 0 ≤ callIndex ∧ callIndex < (history.length : Int) then
            let i := callIndex.toNat
            let updatedHistory :=
              match history[i]? with
              | some r => history.set i { r with outcome := some outcome }
              | none => history
            patchFirst s fhirId (fun a => { a with callHistory := some updatedHistory })
          else s
      | none => s
  | none => s

end Appointments

namespace Patients

/-- The patients `by_fhirId` index lookup followed by `.first()`. -/
def findByFhirId : PatStore → String → Option Patient
  | [], _ => none
  | p :: rest, fhirId =>
      if p.fhirId == fhirId then some p else findByFhirId rest fhirId

/-- Patch-in-place of the first patient document matching the id. -/
def patchFirst (s : PatStore) (fhirId : String) (f : Patient → Patient) : PatStore :=
  match s with
  | [] => []
  | p :: rest =>
      if p.fhirId == fhirId then f p :: rest else p :: patchFirst rest fhirId f

/-- The `patients.upsert` mutation: its args object carries every stored
field, so patching with the args replaces the whole document. -/
def upsert (args : Patient) (s : PatStore) : PatStore :=
  match findByFhirId s args.fhirId with
  | some _ => patchFirst s args.fhirId (fun _ => args)
  | none => s ++ [args]

end Patients

/-- Strip every non-digit character, as `phone.replace(/\D/g, "")` does. -/
def stripNonDigits (phone : String) : String :=
  String.mk (phone.data.filter Char.isDigit)

/-- String prefix test (JS `String.prototype.startsWith`), character-wise. -/
def strStartsWith (s pre : String) : Bool :=
  List.isPrefixOf pre.data s.data

/-- The frontend `formatChileanPhone`: normalize a Chilean phone number to
E.164 `+56XXXXXXXXX`. -/
def formatChileanPhone (phone : String) : String :=
  let digits := stripNonDigits phone
  if strStartsWith digits "56" && digits.length == 11 then
    "+" ++ digits
  else if digits.length == 9 && strStartsWith digits "9" then
    "+56" ++ digits
  else if digits.length == 8 then
    "+569" ++ digits
  else
    "+56" ++ digits


/-- One observed result of a `GET /call-status/{callSid}` query: the fetch may
throw (network error, caught by the loop), or return a body whose `outcome`
field may be absent. -/
inductive PollResult where
  | err
  | ok (outcome : Option Outcome)
deriving DecidableEq, Repr

/-- The trace of a finished polling run: the times at which status queries
were issued (in order) and the outcome transitions committed through
`updateCallOutcome`. -/
structure PollRun where
  times : List Nat
  commits : List Outcome
deriving DecidableEq, Repr

/-- The `const maxAttempts = 30` constant in `pollCallStatus`. -/
def maxAttempts : Nat := 30

/-- The recursive `poll` callback of `pollCallStatus`. `a` is the current
value of the `attempts` counter, `t` the current time (one time unit = one
second; `setTimeout(poll, 2000)` advances it by 2). The `fuel` argument only
bounds the recursion; `pollCallStatus` supplies enough that it never runs
out. On a thrown fetch the catch block only logs, so polling stops; on a
non-pending outcome the loop commits it and stops; otherwise it re-arms the
timer while `attempts < maxAttempts`. -/
def pollAux (query : Nat → PollResult) : Nat → Nat → Nat → PollRun
  | 0, _, _ => { times := [], commits := [] }
  | fuel + 1, a, t =>
    match query a with
    | PollResult.err => { times := [t], commits := [] }
    | PollResult.ok (some o) =>
        if o = Outcome.pending then
          if a + 1 < maxAttempts then
            let rest := pollAux query fuel (a + 1) (t + 2)
            { times := t :: rest.times, commits := rest.commits }
          else { times := [t], commits := [] }
        else { times := [t], commits := [o] }
    | PollResult.ok none =>
        if a + 1 < maxAttempts then
          let rest := pollAux query fuel (a + 1) (t + 2)
          { times := t :: rest.times, commits := rest.commits }
        else { times := [t], commits := [] }

/-- The `pollCallStatus` entry point: start polling at `attempts = 0`. -/
def pollCallStatus (query : Nat → PollResult) : PollRun :=
  pollAux query maxAttempts 0 0

/-- A FHIR coding element (only the `display` field is read). -/
structure Coding where
  display : Option String
deriving DecidableEq, Repr

/-- A FHIR codeable concept (`text` and `coding` are read). -/
structure CodeableConcept where
  text : Option String
  coding : List Coding
deriving DecidableEq, Repr

/-- A nested sub-extension (`url` and `valueBoolean` are read). -/
structure SubExtension where
  url : Option String
  valueBoolean : Option Bool
deriving DecidableEq, Repr

/-- A FHIR extension on the appointment resource. -/
structure Extension where
  url : Option String
  valueCodeableConcept : Option CodeableConcept
  extension : List SubExtension
deriving DecidableEq, Repr

/-- A FHIR reference object. -/
structure FhirReference where
  reference : Option String
deriving DecidableEq, Repr

/-- A participant's actor (`type` and `reference` are read). -/
structure Actor where
  type : Option String
  reference : Option String
deriving DecidableEq, Repr

/-- An appointment participant. -/
structure Participant where
  actor : Option Actor
deriving DecidableEq, Repr

/-- The appointment resource fields the sync action reads. -/
structure AppointmentResource where
  id : String
  status : String
  start : String
  end_ : String
  created : Option String
  extension : List Extension
  serviceType : List CodeableConcept
  basedOn : List FhirReference
  participant : List Participant
deriving DecidableEq, Repr

/-- A FHIR human name (`given` list and `family` are read). -/
structure HumanName where
  given : List String
  family : Option String
deriving DecidableEq, Repr

/-- A FHIR contact point (`system` and `value` are read). -/
structure ContactPoint where
  system : Option String
  value : Option String
deriving DecidableEq, Repr

/-- A FHIR identifier (`value` is read). -/
structure FhirIdentifier where
  value : Option String
deriving DecidableEq, Repr

/-- The patient resource fields the sync action reads. -/
structure PatientResource where
  name : List HumanName
  telecom : List ContactPoint
  identifier : List FhirIdentifier
  gender : Option String
  birthDate : Option String
deriving DecidableEq, Repr

/-- The service-request resource fields the sync action reads. -/
structure ServiceRequestResource where
  code : Option CodeableConcept
  category : List CodeableConcept
deriving DecidableEq, Repr

/-- The practitioner-role resource fields the sync action reads. -/
structure PractitionerRoleResource where
  organization : Option FhirReference
deriving DecidableEq, Repr

/-- The organization resource fields the sync action reads. -/
structure OrganizationResource where
  name : Option String
deriving DecidableEq, Repr

/-- The authenticated FHIR collaborator as seen by one sync run: each
`fetchResource` call either returns the resource or throws. -/
structure FhirEnv where
  fetchServiceRequest : String → Except Unit ServiceRequestResource
  fetchPatient : String → Except Unit PatientResource
  fetchPractitionerRole : String → Except Unit PractitionerRoleResource
  fetchOrganization : String → Except Unit OrganizationResource

/-- JS `a || b` on an optional string: an absent or empty (falsy) `a` falls
through to `b`. -/
def jsOrString : Option String → Option String → Option String
  | some s, y => if s = "" then y else some s
  | none, y => y

/-- Substring search over character lists (JS `String.prototype.includes`). -/
def strIncludesAux (pat : List Char) : List Char → Bool
  | [] => pat.isEmpty
  | c :: rest => List.isPrefixOf pat (c :: rest) || strIncludesAux pat rest

/-- JS `s.includes(pat)`. -/
def strIncludes (s pat : String) : Bool :=
  strIncludesAux pat.data s.data

/-- JS `u?.includes(pat)` used as a condition: an absent string is falsy. -/
def optIncludes (u : Option String) (pat : String) : Bool :=
  match u with
  | some s => strIncludes s pat
  | none => false

/-- JS `s.split("/")` on character lists. -/
def splitOnSlash : List Char → List (List Char)
  | [] => [[]]
  | c :: rest =>
    let r := splitOnSlash rest
    if c = '/' then [] :: r
    else
      match r with
      | [] => [[c]]
      | g :: gs => (c :: g) :: gs

/-- The `extractIdFromReference` helper: take the segment after the last
`/` when the
reference contains one (`split("/").pop() || reference`), else the reference
itself. -/
def extractIdFromReference (reference : String) : String :=
  if reference.data.contains '/' then
    match (splitOnSlash reference.data).getLast? with
    | some last => if last.isEmpty then reference else String.mk last
    | none => reference
  else reference

/-- JS `array.join(" ")`. -/
def joinSpace : List String → String
  | [] => ""
  | [s] => s
  | s :: rest => s ++ " " ++ joinSpace rest

/-- JS `String.prototype.trim`: drop whitespace from both ends. -/
def trimString (s : String) : String :=
  String.mk (((s.data.dropWhile Char.isWhitespace).reverse.dropWhile
    Char.isWhitespace).reverse)

/-- Accumulator of the `basedOn` loop: the three service-request fields the
loop assigns. -/
structure SRAcc where
  serviceRequestId : Option String
  serviceRequestCode : Option String
  serviceRequestCategory : Option String
deriving DecidableEq, Repr

/-- One iteration of the `basedOn` loop of `syncFhirData`: the id is taken
from the reference before the `try`, so a failed fetch still records it,
while `code`/`category` keep their previous values. -/
def srStep (env : FhirEnv) (acc : SRAcc) (basedOn : FhirReference) : SRAcc :=
  let ref := basedOn.reference.getD ""
  if strIncludes ref "ServiceRequest" then
    let serviceRequestId := extractIdFromReference ref
    match env.fetchServiceRequest serviceRequestId with
    | Except.ok serviceRequest =>
        let code := serviceRequest.code.getD { text := none, coding := [] }
        { serviceRequestId := some serviceRequestId
          serviceRequestCode :=
            jsOrString (jsOrString code.text (code.coding.head?.bind Coding.display)) none
          serviceRequestCategory :=
            jsOrString
              (serviceRequest.category.head?.bind fun c => c.coding.head?.bind Coding.display)
              none }
    | Except.error _ => { acc with serviceRequestId := some serviceRequestId }
  else acc

/-- The whole `basedOn` loop. -/
def resolveServiceRequestFields (env : FhirEnv) (basedOn : List FhirReference) : SRAcc :=
  basedOn.foldl (srStep env)
    { serviceRequestId := none
      serviceRequestCode := none
      serviceRequestCategory := none }

/-- Accumulator of the participant loop: the five appointment fields the loop
assigns plus the patient upserts it performs. -/
structure PartAcc where
  patientId : Option String
  patientName : Option String
  patientPhone : Option String
  organizationId : Option String
  organizationName : Option String
  patientUpserts : List Patient
deriving DecidableEq, Repr

/-- One iteration of the participant loop of `syncFhirData`. A `Patient`
actor is fetched and normalized (its id is taken before the `try`); a
`PractitionerRole` actor is fetched and followed to its organization, whose
id is recorded before the inner `try` around the organization fetch. -/
def participantStep (env : FhirEnv) (acc : PartAcc) (participant : Participant) : PartAcc :=
  let actorType := participant.actor.bind Actor.type
  let ref := (participant.actor.bind Actor.reference).getD ""
  let acc1 :=
    if actorType = some "Patient" then
      let patientId := extractIdFromReference ref
      match env.fetchPatient patientId with
      | Except.ok patient =>
          let name := patient.name.headD { given := [], family := none }
          let givenName := joinSpace name.given
          let familyName := name.family.getD ""
          let patientName := trimString (givenName ++ " " ++ familyName)
          let patientPhone :=
            match patient.telecom.find? (fun t => t.system == some "phone") with
            | some t => t.value
            | none => acc.patientPhone
          let identifier := patient.identifier.head?.bind FhirIdentifier.value
          { acc with
            patientId := some patientId
            patientName := some patientName
            patientPhone := patientPhone
            patientUpserts := acc.patientUpserts ++
              [{ fhirId := patientId, identifier := identifier, givenName := givenName,
                 familyName := familyName, phone := patientPhone,
                 gender := patient.gender, birthDate := patient.birthDate }] }
      | Except.error _ => { acc with patientId := some patientId }
    else acc
  if actorType = some "PractitionerRole" then
    let prId := extractIdFromReference ref
    match env.fetchPractitionerRole prId with
    | Except.ok practitionerRole =>
        let orgRef := (practitionerRole.organization.bind FhirReference.reference).getD ""
        if orgRef ≠ "" then
          let organizationId := extractIdFromReference orgRef
          match env.fetchOrganization organizationId with
          | Except.ok organization =>
              { acc1 with organizationId := some organizationId,
                          organizationName := jsOrString organization.name none }
          | Except.error _ => { acc1 with organizationId := some organizationId }
        else acc1
    | Except.error _ => acc1
  else acc1

/-- The whole participant loop. -/
def resolveParticipants (env : FhirEnv) (participants : List Participant) : PartAcc :=
  participants.foldl (participantStep env)
    { patientId := none, patientName := none, patientPhone := none,
      organizationId := none, organizationName := none, patientUpserts := [] }

/-- One iteration of `syncFhirData`'s entry loop: extension scan, service
type, service-request resolution, participant resolution, then the
appointment upsert args. Returns the upsert args together with the patient
upserts performed along the way. -/
def processEntry (env : FhirEnv) (appointment : AppointmentResource) :
    ApptArgs × List Patient :=
  let contact := appointment.extension.foldl
    (fun (cf : Option String × Option Bool) ext =>
      let cm :=
        if optIncludes ext.url "MediodeContacto" then
          ext.valueCodeableConcept.bind fun vc => vc.coding.head?.bind Coding.display
        else cf.1
      let cd :=
        if optIncludes ext.url "Contactado" then
          ext.extension.foldl
            (fun c sub => if sub.url = some "Contactado" then sub.valueBoolean else c) cf.2
        else cf.2
      (cm, cd))
    (none, none)
  let serviceType :=
    jsOrString (appointment.serviceType.head?.bind fun st => st.coding.head?.bind Coding.display)
      none
  let sr := resolveServiceRequestFields env appointment.basedOn
  let parts := resolveParticipants env appointment.participant
  ({ fhirId := appointment.id
     status := appointment.status
     serviceType := serviceType
     start := appointment.start
     end_ := appointment.end_
     created := appointment.created
     patientId := parts.patientId
     patientName := parts.patientName
     patientPhone := parts.patientPhone
     contactMethod := contact.1
     contacted := contact.2
     serviceRequestId := sr.serviceRequestId
     serviceRequestCode := sr.serviceRequestCode
     serviceRequestCategory := sr.serviceRequestCategory
     organizationId := parts.organizationId
     organizationName := parts.organizationName }, parts.patientUpserts)

/-- The result of one sync run: the appointment upserts and patient upserts
issued, in order. -/
structure SyncResult where
  apptUpserts : List ApptArgs
  patientUpserts : List Patient
deriving DecidableEq, Repr

/-- The entry loop of `syncFhirData` over the fetched bundle's entries. -/
def syncFhirData (env : FhirEnv) (entries : List AppointmentResource) : SyncResult :=
  entries.foldl
    (fun r e =>
      let pe := processEntry env e
      { apptUpserts := r.apptUpserts ++ [pe.1],
        patientUpserts := r.patientUpserts ++ pe.2 })
    { apptUpserts := [], patientUpserts := [] }

namespace Appointments

/-- A patch keyed on an id finds the patched document again, provided the
patch does not change the matched document's key. -/
theorem find_patchFirst (s : ApptStore) (id : String) (f : Appointment → Appointment)
    (a : Appointment) (hfind : findByFhirId s id = some a)
    (hkey : (f a).fhirId = a.fhirId) :
    findByFhirId (patchFirst s id f) id = some (f a) := by
  induction s with
  | nil => simp [findByFhirId] at hfind
  | cons b rest ih =>
      by_cases hb : (b.fhirId == id) = true
      · have hab : a = b := by
          simp [findByFhirId, hb] at hfind
          exact hfind.symm
        subst hab
        have hfb : ((f a).fhirId == id) = true := by
          rw [hkey]; exact hb
        simp [patchFirst, findByFhirId, hb, hfb]
      · have hfind' : findByFhirId rest id = some a := by
          simpa [findByFhirId, hb] using hfind
        simp [patchFirst, findByFhirId, hb, ih hfind']

/-- Patching never changes the number of stored documents. -/
theorem patchFirst_length (s : ApptStore) (id : String) (f : Appointment → Appointment) :
    (patchFirst s id f).length = s.length := by
  induction s with
  | nil => rfl
  | cons b rest ih =>
      by_cases hb : (b.fhirId == id) = true
      · simp [patchFirst, hb]
      · simp [patchFirst, hb, ih]

/-- A patch that preserves the matched document's key leaves every keyed
filter of the store at the same size. -/
theorem filter_patchFirst_length (s : ApptStore) (id : String)
    (f : Appointment → Appointment) (a : Appointment)
    (hfind : findByFhirId s id = some a) (hkey : (f a).fhirId = a.fhirId)
    (key : String) :
    ((patchFirst s id f).filter (fun x => x.fhirId == key)).length =
      (s.filter (fun x => x.fhirId == key)).length := by
  induction s with
  | nil => simp [findByFhirId] at hfind
  | cons b rest ih =>
      by_cases hb : (b.fhirId == id) = true
      · have hab : a = b := by
          simp [findByFhirId, hb] at hfind
          exact hfind.symm
        subst hab
        by_cases hk : (a.fhirId == key) = true
        · have : ((f a).fhirId == key) = true := by rw [hkey]; exact hk
          simp [patchFirst, hb, List.filter_cons, hk, this]
        · have : ((f a).fhirId == key) = false := by
            rw [hkey]; exact Bool.of_not_eq_true hk
          simp [patchFirst, hb, List.filter_cons, hk, this]
      · have hfind' : findByFhirId rest id = some a := by
          simpa [findByFhirId, hb] using hfind
        by_cases hk : (b.fhirId == key) = true
        · simp [patchFirst, hb, List.filter_cons, hk, ih hfind']
        · simp [patchFirst, hb, List.filter_cons, hk, ih hfind']

/-- When no document has the key, the keyed filter is empty. -/
theorem filter_eq_nil_of_find_none (s : ApptStore) (id : String)
    (hfind : findByFhirId s id = none) :
    s.filter (fun x => x.fhirId == id) = [] := by
  induction s with
  | nil => rfl
  | cons b rest ih =>
      by_cases hb : (b.fhirId == id) = true
      · simp [findByFhirId, hb] at hfind
      · have hfind' : findByFhirId rest id = none := by
          simpa [findByFhirId, hb] using hfind
        simp [List.filter_cons, hb, ih hfind']

end Appointments

namespace Patients

/-- Patient analogue of `Appointments.find_patchFirst`. -/
theorem pat_find_patchFirst (s : PatStore) (id : String) (f : Patient → Patient)
    (p : Patient) (hfind : findByFhirId s id = some p)
    (hkey : (f p).fhirId = p.fhirId) :
    findByFhirId (patchFirst s id f) id = some (f p) := by
  induction s with
  | nil => simp [findByFhirId] at hfind
  | cons b rest ih =>
      by_cases hb : (b.fhirId == id) = true
      · have hab : p = b := by
          simp [findByFhirId, hb] at hfind
          exact hfind.symm
        subst hab
        have hfb : ((f p).fhirId == id) = true := by
          rw [hkey]; exact hb
        simp [patchFirst, findByFhirId, hb, hfb]
      · have hfind' : findByFhirId rest id = some p := by
          simpa [findByFhirId, hb] using hfind
        simp [patchFirst, findByFhirId, hb, ih hfind']

/-- Patient analogue of `Appointments.patchFirst_length`. -/
theorem pat_patchFirst_length (s : PatStore) (id : String) (f : Patient → Patient) :
    (patchFirst s id f).length = s.length := by
  induction s with
  | nil => rfl
  | cons b rest ih =>
      by_cases hb : (b.fhirId == id) = true
      · simp [patchFirst, hb]
      · simp [patchFirst, hb, ih]

/-- Patient analogue of `Appointments.filter_patchFirst_length`. -/
theorem pat_filter_patchFirst_length (s : PatStore) (id : String)
    (f : Patient → Patient) (p : Patient)
    (hfind : findByFhirId s id = some p) (hkey : (f p).fhirId = p.fhirId)
    (key : String) :
    ((patchFirst s id f).filter (fun x => x.fhirId == key)).length =
      (s.filter (fun x => x.fhirId == key)).length := by
  induction s with
  | nil => simp [findByFhirId] at hfind
  | cons b rest ih =>
      by_cases hb : (b.fhirId == id) = true
      · have hab : p = b := by
          simp [findByFhirId, hb] at hfind
          exact hfind.symm
        subst hab
        by_cases hk : (p.fhirId == key) = true
        · have : ((f p).fhirId == key) = true := by rw [hkey]; exact hk
          simp [patchFirst, hb, List.filter_cons, hk, this]
        · have : ((f p).fhirId == key) = false := by
            rw [hkey]; exact Bool.of_not_eq_true hk
          simp [patchFirst, hb, List.filter_cons, hk, this]
      · have hfind' : findByFhirId rest id = some p := by
          simpa [findByFhirId, hb] using hfind
        by_cases hk : (b.fhirId == key) = true
        · simp [patchFirst, hb, List.filter_cons, hk, ih hfind']
        · simp [patchFirst, hb, List.filter_cons, hk, ih hfind']

/-- Patient analogue of `Appointments.filter_eq_nil_of_find_none`. -/
theorem pat_filter_eq_nil_of_find_none (s : PatStore) (id : String)
    (hfind : findByFhirId s id = none) :
    s.filter (fun x => x.fhirId == id) = [] := by
  induction s with
  | nil => rfl
  | cons b rest ih =>
      by_cases hb : (b.fhirId == id) = true
      · simp [findByFhirId, hb] at hfind
      · have hfind' : findByFhirId rest id = none := by
          simpa [findByFhirId, hb] using hfind
        simp [List.filter_cons, hb, ih hfind']

end Patients

/-- The keyed-store invariant on the appointments table: at most one
document per external id. -/
def ApptKeyUnique (s : ApptStore) : Prop :=
  ∀ id : String, (s.filter (fun a => a.fhirId == id)).length ≤ 1

/-- The keyed-store invariant on the patients table. -/
def PatKeyUnique (s : PatStore) : Prop :=
  ∀ id : String, (s.filter (fun p => p.fhirId == id)).length ≤ 1

namespace Appointments

/-- A found document's key equals the id it was looked up by. -/
theorem fhirId_of_find (s : ApptStore) (id : String) (a : Appointment)
    (hfind : findByFhirId s id = some a) : a.fhirId = id := by
  induction s with
  | nil => simp [findByFhirId] at hfind
  | cons b rest ih =>
      by_cases hb : (b.fhirId == id) = true
      · have hab : a = b := by
          simp [findByFhirId, hb] at hfind
          exact hfind.symm
        subst hab
        exact eq_of_beq hb
      · exact ih (by simpa [findByFhirId, hb] using hfind)

/-- The args patch keeps the matched document's key: the document was found
by `args.fhirId` and the patch writes that same id back. -/
theorem applyArgs_key (args : ApptArgs) (s : ApptStore) (a : Appointment)
    (hfind : findByFhirId s args.fhirId = some a) :
    (applyArgs args a).fhirId = a.fhirId := by
  have := fhirId_of_find s args.fhirId a hfind
  simp [applyArgs, this]

/-- One `appointments.upsert` preserves the at-most-one-per-id invariant. -/
theorem upsert_preserves_unique (args : ApptArgs) (s : ApptStore)
    (hs : ApptKeyUnique s) : ApptKeyUnique (upsert args s) := by
  intro key
  unfold upsert
  cases hfind : findByFhirId s args.fhirId with
  | some a =>
      simp only
      rw [filter_patchFirst_length s args.fhirId (applyArgs args) a hfind
        (applyArgs_key args s a hfind) key]
      exact hs key
  | none =>
      simp only
      rw [List.filter_append]
      by_cases hk : ((insertDoc args).fhirId == key) = true
      · have hkey : args.fhirId = key := eq_of_beq hk
        have hnil : s.filter (fun x => x.fhirId == key) = [] := by
          rw [← hkey]
          exact filter_eq_nil_of_find_none s args.fhirId hfind
        simp [hnil, List.filter_cons, hk]
      · have hk' : ((insertDoc args).fhirId == key) = false :=
          Bool.of_not_eq_true hk
        simpa [List.filter_cons, hk'] using hs key

end Appointments

namespace Patients

/-- A found patient's key equals the id it was looked up by. -/
theorem pat_fhirId_of_find (s : PatStore) (id : String) (p : Patient)
    (hfind : findByFhirId s id = some p) : p.fhirId = id := by
  induction s with
  | nil => simp [findByFhirId] at hfind
  | cons b rest ih =>
      by_cases hb : (b.fhirId == id) = true
      · have hab : p = b := by
          simp [findByFhirId, hb] at hfind
          exact hfind.symm
        subst hab
        exact eq_of_beq hb
      · exact ih (by simpa [findByFhirId, hb] using hfind)

/-- One `patients.upsert` preserves the at-most-one-per-id invariant. -/
theorem pat_upsert_preserves_unique (args : Patient) (s : PatStore)
    (hs : PatKeyUnique s) : PatKeyUnique (upsert args s) := by
  intro key
  unfold upsert
  cases hfind : findByFhirId s args.fhirId with
  | some p =>
      simp only
      have hkey : ((fun _ => args) p).fhirId = p.fhirId := by
        simp [pat_fhirId_of_find s args.fhirId p hfind]
      rw [pat_filter_patchFirst_length s args.fhirId (fun _ => args) p hfind hkey key]
      exact hs key
  | none =>
      simp only
      rw [List.filter_append]
      by_cases hk : (args.fhirId == key) = true
      · have hkey : args.fhirId = key := eq_of_beq hk
        have hnil : s.filter (fun x => x.fhirId == key) = [] := by
          rw [← hkey]
          exact pat_filter_eq_nil_of_find_none s args.fhirId hfind
        simp [hnil, List.filter_cons, hk]
      · have hk' : (args.fhirId == key) = false := Bool.of_not_eq_true hk
        simpa [List.filter_cons, hk'] using hs key

end Patients

namespace Appointments

/-- Applying the same args patch twice equals applying it once. -/
theorem applyArgs_idem (args : ApptArgs) (a : Appointment) :
    applyArgs args (applyArgs args a) = applyArgs args a := rfl

/-- Patching again after a key-preserving, idempotent patch is a no-op. -/
theorem patchFirst_idem (s : ApptStore) (id : String) (f : Appointment → Appointment)
    (a : Appointment) (hfind : findByFhirId s id = some a)
    (hkey : (f a).fhirId = a.fhirId) (hidem : f (f a) = f a) :
    patchFirst (patchFirst s id f) id f = patchFirst s id f := by
  induction s with
  | nil => rfl
  | cons b rest ih =>
      by_cases hb : (b.fhirId == id) = true
      · have hab : a = b := by
          simp [findByFhirId, hb] at hfind
          exact hfind.symm
        subst hab
        have hfb : ((f a).fhirId == id) = true := by rw [hkey]; exact hb
        simp [patchFirst, hb, hfb, hidem]
      · have hfind' : findByFhirId rest id = some a := by
          simpa [findByFhirId, hb] using hfind
        simp [patchFirst, hb, ih hfind']

/-- When no document in `s` matches, a patch of `s ++ [d]` patches only `d`. -/
theorem patchFirst_append_of_find_none (s : ApptStore) (id : String)
    (f : Appointment → Appointment) (d : Appointment)
    (hfind : findByFhirId s id = none) (hd : (d.fhirId == id) = true) :
    patchFirst (s ++ [d]) id f = s ++ [f d] := by
  induction s with
  | nil => simp [patchFirst, hd]
  | cons b rest ih =>
      by_cases hb : (b.fhirId == id) = true
      · simp [findByFhirId, hb] at hfind
      · have hfind' : findByFhirId rest id = none := by
          simpa [findByFhirId, hb] using hfind
        simp [patchFirst, hb, ih hfind']

/-- After appending a matching document to a store with no match, the lookup
finds the appended document. -/
theorem find_append_of_find_none (s : ApptStore) (id : String) (d : Appointment)
    (hfind : findByFhirId s id = none) (hd : (d.fhirId == id) = true) :
    findByFhirId (s ++ [d]) id = some d := by
  induction s with
  | nil => simp [findByFhirId, hd]
  | cons b rest ih =>
      by_cases hb : (b.fhirId == id) = true
      · simp [findByFhirId, hb] at hfind
      · have hfind' : findByFhirId rest id = none := by
          simpa [findByFhirId, hb] using hfind
        simp [findByFhirId, hb, ih hfind']

/-- Re-running `appointments.upsert` with identical args is a no-op. -/
theorem upsert_idem (args : ApptArgs) (s : ApptStore) :
    upsert args (upsert args s) = upsert args s := by
  cases hfind : findByFhirId s args.fhirId with
  | some a =>
      have hkey := applyArgs_key args s a hfind
      have hfind2 : findByFhirId (patchFirst s args.fhirId (applyArgs args))
          args.fhirId = some (applyArgs args a) :=
        find_patchFirst s args.fhirId (applyArgs args) a hfind hkey
      unfold upsert
      rw [hfind]
      simp only
      rw [hfind2]
      simp only
      exact patchFirst_idem s args.fhirId (applyArgs args) a hfind hkey
        (applyArgs_idem args a)
  | none =>
      have hd : ((insertDoc args).fhirId == args.fhirId) = true := by
        simp [insertDoc]
      have hfind2 : findByFhirId (s ++ [insertDoc args]) args.fhirId =
          some (insertDoc args) :=
        find_append_of_find_none s args.fhirId (insertDoc args) hfind hd
      unfold upsert
      rw [hfind]
      simp only
      rw [hfind2]
      simp only
      rw [patchFirst_append_of_find_none s args.fhirId (applyArgs args)
        (insertDoc args) hfind hd]
      rfl

end Appointments

namespace Patients

/-- Patient analogue of `Appointments.patchFirst_idem`. -/
theorem pat_patchFirst_idem (s : PatStore) (id : String) (f : Patient → Patient)
    (p : Patient) (hfind : findByFhirId s id = some p)
    (hkey : (f p).fhirId = p.fhirId) (hidem : f (f p) = f p) :
    patchFirst (patchFirst s id f) id f = patchFirst s id f := by
  induction s with
  | nil => rfl
  | cons b rest ih =>
      by_cases hb : (b.fhirId == id) = true
      · have hab : p = b := by
          simp [findByFhirId, hb] at hfind
          exact hfind.symm
        subst hab
        have hfb : ((f p).fhirId == id) = true := by rw [hkey]; exact hb
        simp [patchFirst, hb, hfb, hidem]
      · have hfind' : findByFhirId rest id = some p := by
          simpa [findByFhirId, hb] using hfind
        simp [patchFirst, hb, ih hfind']

/-- Patient analogue of `Appointments.patchFirst_append_of_find_none`. -/
theorem pat_patchFirst_append_of_find_none (s : PatStore) (id : String)
    (f : Patient → Patient) (d : Patient)
    (hfind : findByFhirId s id = none) (hd : (d.fhirId == id) = true) :
    patchFirst (s ++ [d]) id f = s ++ [f d] := by
  induction s with
  | nil => simp [patchFirst, hd]
  | cons b rest ih =>
      by_cases hb : (b.fhirId == id) = true
      · simp [findByFhirId, hb] at hfind
      · have hfind' : findByFhirId rest id = none := by
          simpa [findByFhirId, hb] using hfind
        simp [patchFirst, hb, ih hfind']

/-- Patient analogue of `Appointments.find_append_of_find_none`. -/
theorem pat_find_append_of_find_none (s : PatStore) (id : String) (d : Patient)
    (hfind : findByFhirId s id = none) (hd : (d.fhirId == id) = true) :
    findByFhirId (s ++ [d]) id = some d := by
  induction s with
  | nil => simp [findByFhirId, hd]
  | cons b rest ih =>
      by_cases hb : (b.fhirId == id) = true
      · simp [findByFhirId, hb] at hfind
      · have hfind' : findByFhirId rest id = none := by
          simpa [findByFhirId, hb] using hfind
        simp [findByFhirId, hb, ih hfind']

/-- Re-running `patients.upsert` with identical args is a no-op. -/
theorem pat_upsert_idem (args : Patient) (s : PatStore) :
    upsert args (upsert args s) = upsert args s := by
  cases hfind : findByFhirId s args.fhirId with
  | some p =>
      have hkey : ((fun _ => args) p).fhirId = p.fhirId := by
        simp [pat_fhirId_of_find s args.fhirId p hfind]
      have hfind2 : findByFhirId (patchFirst s args.fhirId (fun _ => args))
          args.fhirId = some args :=
        pat_find_patchFirst s args.fhirId (fun _ => args) p hfind hkey
      unfold upsert
      rw [hfind]
      simp only
      rw [hfind2]
      simp only
      exact pat_patchFirst_idem s args.fhirId (fun _ => args) p hfind hkey rfl
  | none =>
      have hd : (args.fhirId == args.fhirId) = true := by simp
      have hfind2 : findByFhirId (s ++ [args]) args.fhirId = some args :=
        pat_find_append_of_find_none s args.fhirId args hfind hd
      unfold upsert
      rw [hfind]
      simp only
      rw [hfind2]
      simp only
      rw [pat_patchFirst_append_of_find_none s args.fhirId (fun _ => args) args hfind hd]

end Patients

namespace Appointments

/-- Lookup after `recordCall` on a present id: the found document is the old
one with one pending record appended and the contacted flag set. -/
theorem find_recordCall (s : ApptStore) (fhirId : String) (callSid : Option String)
    (ts : String) (a : Appointment) (hfind : findByFhirId s fhirId = some a) :
    findByFhirId (recordCall s fhirId callSid ts) fhirId =
      some { a with
        callHistory := some (a.callHistory.getD [] ++
          [{ timestamp := ts, callSid := callSid, outcome := some Outcome.pending }]),
        contacted := some true } := by
  unfold recordCall
  rw [hfind]
  simp only
  exact find_patchFirst s fhirId _ a hfind rfl

end Appointments

/-- A sequence of appointment upserts from a store with at most one document
per id keeps at most one document per id. -/
theorem foldl_upsert_unique (argsList : List ApptArgs) (s : ApptStore)
    (hs : ApptKeyUnique s) :
    ApptKeyUnique (argsList.foldl (fun st args => Appointments.upsert args st) s) := by
  induction argsList generalizing s with
  | nil => exact hs
  | cons args rest ih =>
      exact ih (Appointments.upsert args s)
        (Appointments.upsert_preserves_unique args s hs)

/-- A sequence of patient upserts from a store with at most one document per
id keeps at most one document per id. -/
theorem foldl_upsert_unique_pat (argsList : List Patient) (s : PatStore)
    (hs : PatKeyUnique s) :
    PatKeyUnique (argsList.foldl (fun st args => Patients.upsert args st) s) := by
  induction argsList generalizing s with
  | nil => exact hs
  | cons args rest ih =>
      exact ih (Patients.upsert args s)
        (Patients.pat_upsert_preserves_unique args s hs)

/-- C2: every sequence of upserts keeps at most one appointment (resp.
patient) document per external id; an upsert whose id exists patches in
place without growing the store; and re-upserting identical args is a no-op
on the store. -/
theorem upsert_keyed_store_invariant :
    (∀ (argsList : List ApptArgs) (s : ApptStore), ApptKeyUnique s →
      ApptKeyUnique (argsList.foldl (fun st args => Appointments.upsert args st) s)) ∧
    (∀ (argsList : List Patient) (s : PatStore), PatKeyUnique s →
      PatKeyUnique (argsList.foldl (fun st args => Patients.upsert args st) s)) ∧
    (∀ (args : ApptArgs) (s : ApptStore) (a : Appointment),
      Appointments.findByFhirId s args.fhirId = some a →
      (Appointments.upsert args s).length = s.length) ∧
    (∀ (args : Patient) (s : PatStore) (p : Patient),
      Patients.findByFhirId s args.fhirId = some p →
      (Patients.upsert args s).length = s.length) ∧
    (∀ (args : ApptArgs) (s : ApptStore),
      Appointments.upsert args (Appointments.upsert args s) =
        Appointments.upsert args s) ∧
    (∀ (args : Patient) (s : PatStore),
      Patients.upsert args (Patients.upsert args s) = Patients.upsert args s) := by
  refine ⟨foldl_upsert_unique, foldl_upsert_unique_pat, ?_, ?_,
    Appointments.upsert_idem, Patients.pat_upsert_idem⟩
  · intro args s a hfind
    unfold Appointments.upsert
    rw [hfind]
    simp only
    exact Appointments.patchFirst_length s args.fhirId _
  · intro args s p hfind
    unfold Patients.upsert
    rw [hfind]
    simp only
    exact Patients.pat_patchFirst_length s args.fhirId _

/-- A concrete appointment-upsert argument object used by witnesses. -/
def sampleArgs : ApptArgs :=
  { fhirId := "appt-1", status := "booked", serviceType := none,
    start := "2026-01-01T10:00:00", end_ := "2026-01-01T10:30:00",
    created := none, patientId := none, patientName := none,
    patientPhone := none, contactMethod := none, contacted := none,
    serviceRequestId := none, serviceRequestCode := none,
    serviceRequestCategory := none, organizationId := none,
    organizationName := none }

/-- A concrete stored appointment (id `appt-1`) with a one-record history. -/
def sampleAppt : Appointment :=
  { fhirId := "appt-1", status := "booked", serviceType := none,
    start := "2026-01-01T10:00:00", end_ := "2026-01-01T10:30:00",
    created := none, patientId := none, patientName := none,
    patientPhone := none, contactMethod := none, contacted := none,
    serviceRequestId := none, serviceRequestCode := none,
    serviceRequestCategory := none, organizationId := none,
    organizationName := none,
    callHistory :=
      some [{ timestamp := "2026-01-01T09:00:00", callSid := some "CA1", outcome := some Outcome.pending }] }

/-- A concrete stored patient document. -/
def samplePatient : Patient :=
  { fhirId := "pat-1", identifier := none, givenName := "Ana",
    familyName := "Soto", phone := none, gender := none, birthDate := none }

/-- Witness for C2 at concrete inputs. -/
theorem upsert_keyed_store_invariant_witness :
    ApptKeyUnique ([sampleArgs, sampleArgs].foldl
      (fun st args => Appointments.upsert args st) []) ∧
    PatKeyUnique ([samplePatient, samplePatient].foldl
      (fun st args => Patients.upsert args st) []) ∧
    (Appointments.upsert sampleArgs [sampleAppt]).length = 1 ∧
    (Patients.upsert samplePatient [samplePatient]).length = 1 ∧
    Appointments.upsert sampleArgs (Appointments.upsert sampleArgs []) =
      Appointments.upsert sampleArgs [] ∧
    Patients.upsert samplePatient (Patients.upsert samplePatient []) =
      Patients.upsert samplePatient [] :=
  ⟨upsert_keyed_store_invariant.1 [sampleArgs, sampleArgs] []
      (fun _ => by simp),
   upsert_keyed_store_invariant.2.1 [samplePatient, samplePatient] []
      (fun _ => by simp),
   upsert_keyed_store_invariant.2.2.1 sampleArgs [sampleAppt] sampleAppt
      (by decide),
   upsert_keyed_store_invariant.2.2.2.1 samplePatient [samplePatient]
      samplePatient (by decide),
   upsert_keyed_store_invariant.2.2.2.2.1 sampleArgs [],
   upsert_keyed_store_invariant.2.2.2.2.2 samplePatient []⟩

/-- C1: when the id is present, `recordCall` appends exactly one
`{timestamp, callSid, outcome := pending}` record at the end of the call
history, sets the contacted flag, and leaves every prior record unchanged in
content and position. -/
theorem recordCall_appends_pending (s : ApptStore) (fhirId : String)
    (callSid : Option String) (ts : String) (a : Appointment)
    (hfind : Appointments.findByFhirId s fhirId = some a) :
    ∃ a', Appointments.findByFhirId
        (Appointments.recordCall s fhirId callSid ts) fhirId = some a' ∧
      a'.callHistory = some (a.callHistory.getD [] ++
        [{ timestamp := ts, callSid := callSid, outcome := some Outcome.pending }]) ∧
      a'.contacted = some true ∧
      (a'.callHistory.getD []).length = (a.callHistory.getD []).length + 1 ∧
      ∀ j, j < (a.callHistory.getD []).length →
        (a'.callHistory.getD [])[j]? = (a.callHistory.getD [])[j]? := by
  refine ⟨_, Appointments.find_recordCall s fhirId callSid ts a hfind, rfl, rfl, ?_, ?_⟩
  · simp
  · intro j hj
    simp [List.getElem?_append, hj]

/-- Witness for C1 at a concrete store. -/
theorem recordCall_appends_pending_witness :
    ∃ a', Appointments.findByFhirId
        (Appointments.recordCall [sampleAppt] "appt-1" (some "CA2")
          "2026-01-01T09:05:00") "appt-1" = some a' ∧
      a'.callHistory = some (sampleAppt.callHistory.getD [] ++
        [{ timestamp := "2026-01-01T09:05:00", callSid := some "CA2",
           outcome := some Outcome.pending }]) ∧
      a'.contacted = some true ∧
      (a'.callHistory.getD []).length = (sampleAppt.callHistory.getD []).length + 1 ∧
      ∀ j, j < (sampleAppt.callHistory.getD []).length →
        (a'.callHistory.getD [])[j]? = (sampleAppt.callHistory.getD [])[j]? :=
  recordCall_appends_pending [sampleAppt] "appt-1" (some "CA2")
    "2026-01-01T09:05:00" sampleAppt (by decide)

/-- C3: an out-of-range `callIndex` (negative or at least the current
history length) makes `updateCallOutcome` a silent no-op: no error path
exists and the whole store — in particular the appointment — is unchanged. -/
theorem updateCallOutcome_out_of_range_noop (s : ApptStore) (fhirId : String)
    (idx : Int) (o : Outcome) (a : Appointment)
    (hfind : Appointments.findByFhirId s fhirId = some a)
    (hrange : idx < 0 ∨ ((a.callHistory.getD []).length : Int) ≤ idx) :
    Appointments.updateCallOutcome s fhirId idx o = s := by
  unfold Appointments.updateCallOutcome
  rw [hfind]
  simp only
  cases hch : a.callHistory with
  | none => rfl
  | some history =>
      simp only
      have hneg : ¬ (0 ≤ idx ∧ idx < (history.length : Int)) := by
        rw [hch] at hrange
        simp only [Option.getD_some] at hrange
        rcases hrange with h | h
        · intro hc; omega
        · intro hc; omega
      rw [if_neg hneg]

/-- Witness for C3: both a negative and a too-large index at a concrete
store. -/
theorem updateCallOutcome_out_of_range_noop_witness :
    Appointments.updateCallOutcome [sampleAppt] "appt-1" (-1) Outcome.answered
        = [sampleAppt] ∧
    Appointments.updateCallOutcome [sampleAppt] "appt-1" 1 Outcome.answered
        = [sampleAppt] :=
  ⟨updateCallOutcome_out_of_range_noop [sampleAppt] "appt-1" (-1)
      Outcome.answered sampleAppt (by decide) (Or.inl (by decide)),
   updateCallOutcome_out_of_range_noop [sampleAppt] "appt-1" 1
      Outcome.answered sampleAppt (by decide) (Or.inr (by decide))⟩

/-- C4: an in-range `updateCallOutcome` overwrites only the outcome of the
record at `callIndex`: the history keeps its length, every other index is
untouched, and the targeted record keeps its timestamp and callSid. -/
theorem updateCallOutcome_in_range_frame (s : ApptStore) (fhirId : String)
    (idx : Nat) (o : Outcome) (a : Appointment) (history : List CallRecord)
    (hfind : Appointments.findByFhirId s fhirId = some a)
    (hch : a.callHistory = some history) (hidx : idx < history.length) :
    ∃ hist',
      Appointments.findByFhirId
          (Appointments.updateCallOutcome s fhirId (idx : Int) o) fhirId =
        some { a with callHistory := some hist' } ∧
      hist'.length = history.length ∧
      hist'[idx]? = (history[idx]?).map (fun r => { r with outcome := some o }) ∧
      (∀ j, j ≠ idx → hist'[j]? = history[j]?) := by
  have hget : history[idx]? = some (history.get ⟨idx, hidx⟩) := by
    simp [List.getElem?_eq_getElem hidx]
  unfold Appointments.updateCallOutcome
  rw [hfind]
  simp only
  rw [hch]
  simp only
  have hcond : 0 ≤ (idx : Int) ∧ (idx : Int) < (history.length : Int) :=
    ⟨Int.ofNat_nonneg idx, by exact_mod_cast hidx⟩
  rw [if_pos hcond]
  simp only [Int.toNat_natCast]
  rw [hget]
  simp only
  refine ⟨history.set idx { history.get ⟨idx, hidx⟩ with outcome := some o },
    ?_, ?_, ?_, ?_⟩
  · exact Appointments.find_patchFirst s fhirId _ a hfind rfl
  · simp
  · simp [List.getElem?_set_self, hidx, List.getElem?_eq_getElem]
  · intro j hj
    simp [List.getElem?_set_ne (fun h => hj h.symm)]

/-- Witness for C4 at a concrete store, overwriting index 0. -/
theorem updateCallOutcome_in_range_frame_witness :
    ∃ hist',
      Appointments.findByFhirId
          (Appointments.updateCallOutcome [sampleAppt] "appt-1" (0 : Int)
            Outcome.answered) "appt-1" =
        some { sampleAppt with callHistory := some hist' } ∧
      hist'.length = (sampleAppt.callHistory.getD []).length ∧
      hist'[0]? = ((sampleAppt.callHistory.getD [])[0]?).map
        (fun r => { r with outcome := some Outcome.answered }) ∧
      (∀ j, j ≠ 0 → hist'[j]? = (sampleAppt.callHistory.getD [])[j]?) :=
  updateCallOutcome_in_range_frame [sampleAppt] "appt-1" 0 Outcome.answered
    sampleAppt (sampleAppt.callHistory.getD []) (by decide) rfl (by decide)

/-- C9: the appointment upsert's args carry no `callHistory`, so upserting
over an existing appointment leaves its stored call history exactly as it
was. -/
theorem upsert_preserves_callHistory (args : ApptArgs) (s : ApptStore)
    (a : Appointment)
    (hfind : Appointments.findByFhirId s args.fhirId = some a) :
    ∃ a', Appointments.findByFhirId (Appointments.upsert args s) args.fhirId =
        some a' ∧ a'.callHistory = a.callHistory := by
  refine ⟨Appointments.applyArgs args a, ?_, rfl⟩
  unfold Appointments.upsert
  rw [hfind]
  simp only
  exact Appointments.find_patchFirst s args.fhirId _ a hfind
    (Appointments.applyArgs_key args s a hfind)

/-- Witness for C9: re-upserting over the concrete appointment keeps its
one-record history. -/
theorem upsert_preserves_callHistory_witness :
    ∃ a', Appointments.findByFhirId
        (Appointments.upsert sampleArgs [sampleAppt]) sampleArgs.fhirId =
      some a' ∧ a'.callHistory = sampleAppt.callHistory :=
  upsert_preserves_callHistory sampleArgs [sampleAppt] sampleAppt (by decide)

/-- C10: on an id with no stored appointment, `recordCall`, `markContacted`
and `updateCallOutcome` surface no error and leave the store unchanged. -/
theorem tracker_mutations_missing_id_noop (s : ApptStore) (fhirId : String)
    (callSid : Option String) (ts : String) (c : Bool) (idx : Int) (o : Outcome)
    (hfind : Appointments.findByFhirId s fhirId = none) :
    Appointments.recordCall s fhirId callSid ts = s ∧
    Appointments.markContacted s fhirId c = s ∧
    Appointments.updateCallOutcome s fhirId idx o = s := by
  refine ⟨?_, ?_, ?_⟩
  · unfold Appointments.recordCall
    rw [hfind]
  · unfold Appointments.markContacted
    rw [hfind]
  · unfold Appointments.updateCallOutcome
    rw [hfind]

/-- Witness for C10 at a concrete store and an absent id. -/
theorem tracker_mutations_missing_id_noop_witness :
    Appointments.recordCall [sampleAppt] "missing" (some "CA9") "t" = [sampleAppt] ∧
    Appointments.markContacted [sampleAppt] "missing" true = [sampleAppt] ∧
    Appointments.updateCallOutcome [sampleAppt] "missing" 0 Outcome.failed =
      [sampleAppt] :=
  tracker_mutations_missing_id_noop [sampleAppt] "missing" (some "CA9") "t"
    true 0 Outcome.failed (by decide)

/-- N successive successful call initiations, as `handleCall` performs them:
each one calls `recordCall` with that call's provider sid and timestamp. -/
def recordCalls (s : ApptStore) (fhirId : String)
    (calls : List (Option String × String)) : ApptStore :=
  calls.foldl (fun st c => Appointments.recordCall st fhirId c.1 c.2) s

/-- After a sequence of `recordCall`s the found document's history is the old
history extended by one pending record per call, in call order. -/
theorem find_recordCalls (calls : List (Option String × String)) (s : ApptStore)
    (fhirId : String) (a : Appointment)
    (hfind : Appointments.findByFhirId s fhirId = some a) :
    ∃ a', Appointments.findByFhirId (recordCalls s fhirId calls) fhirId = some a' ∧
      a'.callHistory.getD [] = a.callHistory.getD [] ++
        calls.map (fun c =>
          ({ timestamp := c.2, callSid := c.1, outcome := some Outcome.pending } : CallRecord)) := by
  induction calls generalizing s a with
  | nil => exact ⟨a, hfind, by simp⟩
  | cons c rest ih =>
      have hstep := Appointments.find_recordCall s fhirId c.1 c.2 a hfind
      obtain ⟨a', h1, h2⟩ := ih (Appointments.recordCall s fhirId c.1 c.2) _ hstep
      refine ⟨a', ?_, ?_⟩
      · simpa [recordCalls] using h1
      · rw [h2]
        simp

/-- C8: starting from an appointment with an empty call history, N
successful call initiations leave a history of length exactly N whose
timestamps are the initiation timestamps in order; in particular they are
non-decreasing whenever the initiation timestamps were. -/
theorem call_history_length_and_monotone (s : ApptStore) (fhirId : String)
    (a : Appointment) (calls : List (Option String × String))
    (hfind : Appointments.findByFhirId s fhirId = some a)
    (hfresh : a.callHistory.getD [] = []) :
    ∃ a', Appointments.findByFhirId (recordCalls s fhirId calls) fhirId = some a' ∧
      (a'.callHistory.getD []).length = calls.length ∧
      (a'.callHistory.getD []).map CallRecord.timestamp = calls.map Prod.snd ∧
      (List.Chain' (fun x y : Option String × String => x.2 ≤ y.2) calls →
        List.Chain' (fun r r' : CallRecord => r.timestamp ≤ r'.timestamp)
          (a'.callHistory.getD [])) := by
  obtain ⟨a', h1, h2⟩ := find_recordCalls calls s fhirId a hfind
  rw [hfresh, List.nil_append] at h2
  refine ⟨a', h1, ?_, ?_, ?_⟩
  · rw [h2]; simp
  · rw [h2]; simp
  · intro hchain
    rw [h2, List.chain'_map]
    exact hchain

/-- Witness for C8: two calls with increasing timestamps on a fresh
appointment. -/
theorem call_history_length_and_monotone_witness :
    ∃ a', Appointments.findByFhirId
        (recordCalls [Appointments.insertDoc sampleArgs] "appt-1"
          [(some "CA1", "2026-01-01T09:00:00"), (some "CA2", "2026-01-01T09:10:00")])
        "appt-1" = some a' ∧
      (a'.callHistory.getD []).length =
        [(some "CA1", "2026-01-01T09:00:00"), (some "CA2", "2026-01-01T09:10:00")].length ∧
      (a'.callHistory.getD []).map CallRecord.timestamp =
        [(some "CA1", "2026-01-01T09:00:00"), (some "CA2", "2026-01-01T09:10:00")].map Prod.snd ∧
      (List.Chain' (fun x y : Option String × String => x.2 ≤ y.2)
          [(some "CA1", "2026-01-01T09:00:00"), (some "CA2", "2026-01-01T09:10:00")] →
        List.Chain' (fun r r' : CallRecord => r.timestamp ≤ r'.timestamp)
          (a'.callHistory.getD [])) :=
  call_history_length_and_monotone [Appointments.insertDoc sampleArgs] "appt-1"
    (Appointments.insertDoc sampleArgs)
    [(some "CA1", "2026-01-01T09:00:00"), (some "CA2", "2026-01-01T09:10:00")]
    (by decide) rfl

/-- C7: the three specified Chilean phone shapes normalize to
`+56912345678`, and every input is first stripped of its non-digit
characters, so formatting any string equals formatting its digit content. -/
theorem phone_normalization :
    formatChileanPhone "912345678" = "+56912345678" ∧
    formatChileanPhone "12345678" = "+56912345678" ∧
    formatChileanPhone "56912345678" = "+56912345678" ∧
    ∀ s : String, formatChileanPhone s = formatChileanPhone (stripNonDigits s) := by
  refine ⟨by decide, by decide, by decide, ?_⟩
  intro s
  have hidem : stripNonDigits (stripNonDigits s) = stripNonDigits s := by
    unfold stripNonDigits
    refine congrArg String.mk ?_
    rw [List.filter_filter]
    refine List.filter_congr ?_
    intro c _
    simp
  unfold formatChileanPhone
  rw [hidem]

/-- Shifting a 2-step arithmetic range by one step. -/
theorem range_map_shift (t n : Nat) :
    (List.range (n + 1)).map (fun k => t + 2 * k) =
      t :: (List.range n).map (fun k => t + 2 + 2 * k) := by
  rw [List.range_succ_eq_map, List.map_cons, List.map_map]
  have h2 : ((List.range n).map ((fun k => t + 2 * k) ∘ Nat.succ)) =
      (List.range n).map (fun k => t + 2 + 2 * k) :=
    List.map_congr_left (fun k _ => by
      simp only [Function.comp_apply]
      omega)
  rw [h2]
  simp

/-- The polling loop issues at most `fuel` queries. -/
theorem pollAux_times_le (q : Nat → PollResult) :
    ∀ fuel a t, (pollAux q fuel a t).times.length ≤ fuel := by
  intro fuel
  induction fuel with
  | zero => intro a t; simp [pollAux]
  | succ f ih =>
      intro a t
      cases hqa : q a with
      | err => simp [pollAux, hqa]
      | ok r =>
          cases r with
          | some o =>
              simp only [pollAux, hqa]
              by_cases ho : o = Outcome.pending
              · rw [if_pos ho]
                by_cases hc : a + 1 < maxAttempts
                · rw [if_pos hc]
                  have := ih (a + 1) (t + 2)
                  simp only [List.length_cons]
                  omega
                · rw [if_neg hc]; simp
              · rw [if_neg ho]; simp
          | none =>
              simp only [pollAux, hqa]
              by_cases hc : a + 1 < maxAttempts
              · rw [if_pos hc]
                have := ih (a + 1) (t + 2)
                simp only [List.length_cons]
                omega
              · rw [if_neg hc]; simp

/-- The polling loop commits at most one outcome transition. -/
theorem pollAux_commits_le (q : Nat → PollResult) :
    ∀ fuel a t, (pollAux q fuel a t).commits.length ≤ 1 := by
  intro fuel
  induction fuel with
  | zero => intro a t; simp [pollAux]
  | succ f ih =>
      intro a t
      cases hqa : q a with
      | err => simp [pollAux, hqa]
      | ok r =>
          cases r with
          | some o =>
              simp only [pollAux, hqa]
              by_cases ho : o = Outcome.pending
              · rw [if_pos ho]
                by_cases hc : a + 1 < maxAttempts
                · rw [if_pos hc]
                  exact ih (a + 1) (t + 2)
                · rw [if_neg hc]; simp
              · rw [if_neg ho]; simp
          | none =>
              simp only [pollAux, hqa]
              by_cases hc : a + 1 < maxAttempts
              · rw [if_pos hc]
                exact ih (a + 1) (t + 2)
              · rw [if_neg hc]; simp

/-- The query times of a polling run are consecutive 2-unit steps from the
start time. -/
theorem pollAux_times_shape (q : Nat → PollResult) :
    ∀ fuel a t, (pollAux q fuel a t).times =
      (List.range (pollAux q fuel a t).times.length).map (fun k => t + 2 * k) := by
  intro fuel
  induction fuel with
  | zero => intro a t; simp [pollAux]
  | succ f ih =>
      intro a t
      cases hqa : q a with
      | err => simp [pollAux, hqa, List.range_succ]
      | ok r =>
          cases r with
          | some o =>
              simp only [pollAux, hqa]
              by_cases ho : o = Outcome.pending
              · rw [if_pos ho]
                by_cases hc : a + 1 < maxAttempts
                · rw [if_pos hc]
                  simp only [List.length_cons]
                  rw [range_map_shift]
                  exact congrArg (List.cons t) (ih (a + 1) (t + 2))
                · rw [if_neg hc]; simp [List.range_succ]
              · rw [if_neg ho]; simp [List.range_succ]
          | none =>
              simp only [pollAux, hqa]
              by_cases hc : a + 1 < maxAttempts
              · rw [if_pos hc]
                simp only [List.length_cons]
                rw [range_map_shift]
                exact congrArg (List.cons t) (ih (a + 1) (t + 2))
              · rw [if_neg hc]; simp [List.range_succ]

/-- If every query up to the attempt ceiling observes `pending`, the loop
uses its whole fuel and commits nothing. -/
theorem pollAux_all_pending (q : Nat → PollResult)
    (hq : ∀ k, k < maxAttempts → q k = PollResult.ok (some Outcome.pending)) :
    ∀ fuel a t, fuel + a = maxAttempts →
      (pollAux q fuel a t).times.length = fuel ∧
      (pollAux q fuel a t).commits = [] := by
  intro fuel
  induction fuel with
  | zero => intro a t h; simp [pollAux]
  | succ f ih =>
      intro a t h
      have ha : a < maxAttempts := by omega
      have hqa := hq a ha
      simp only [pollAux, hqa]
      simp only [if_true]
      by_cases hc : a + 1 < maxAttempts
      · rw [if_pos hc]
        have hr := ih (a + 1) (t + 2) (by omega)
        simp [hr.1, hr.2]
      · rw [if_neg hc]
        have hf : f = 0 := by
          unfold maxAttempts at h hc
          omega
        simp [hf]

/-- If the queries observe `pending` strictly before step `j` and a
non-pending outcome at step `j`, the loop stops right after step `j`,
committing exactly that outcome. -/
theorem pollAux_first_nonpending (q : Nat → PollResult) (j : Nat) (o : Outcome)
    (hj : j < maxAttempts)
    (hpend : ∀ k, k < j → q k = PollResult.ok (some Outcome.pending))
    (hq : q j = PollResult.ok (some o)) (ho : o ≠ Outcome.pending) :
    ∀ fuel a t, fuel + a = maxAttempts → a ≤ j →
      pollAux q fuel a t =
        { times := (List.range (j - a + 1)).map (fun k => t + 2 * k),
          commits := [o] } := by
  intro fuel
  induction fuel with
  | zero =>
      intro a t h ha
      exact absurd hj (by omega)
  | succ f ih =>
      intro a t h ha
      by_cases haj : a = j
      · subst haj
        simp only [pollAux, hq]
        rw [if_neg ho]
        simp [List.range_succ]
      · have haj' : a < j := lt_of_le_of_ne ha haj
        have hqa := hpend a haj'
        simp only [pollAux, hqa]
        simp only [if_true]
        have hc : a + 1 < maxAttempts := by omega
        rw [if_pos hc]
        rw [ih (a + 1) (t + 2) (by omega) (by omega)]
        simp only
        congr 1
        have hstep : j - a + 1 = (j - (a + 1) + 1) + 1 := by omega
        rw [hstep, range_map_shift t (j - (a + 1) + 1)]

/-- C5: the status-polling loop queries at most 30 times, the k-th query at
time 2k; it commits at most one outcome transition; if every one of the 30
attempts observes `pending` it stops after 30 queries committing nothing;
and as soon as a first non-pending outcome is observed it commits exactly
that outcome and stops immediately. -/
theorem pollCallStatus_bounded (query : Nat → PollResult) :
    (pollCallStatus query).times.length ≤ 30 ∧
    (pollCallStatus query).times =
      (List.range (pollCallStatus query).times.length).map (fun k => 2 * k) ∧
    (pollCallStatus query).commits.length ≤ 1 ∧
    ((∀ k, k < 30 → query k = PollResult.ok (some Outcome.pending)) →
      (pollCallStatus query).times.length = 30 ∧
      (pollCallStatus query).commits = []) ∧
    (∀ j o, j < 30 →
      (∀ k, k < j → query k = PollResult.ok (some Outcome.pending)) →
      query j = PollResult.ok (some o) → o ≠ Outcome.pending →
      pollCallStatus query =
        { times := (List.range (j + 1)).map (fun k => 2 * k),
          commits := [o] }) := by
  refine ⟨?_, ?_, ?_, ?_, ?_⟩
  · exact pollAux_times_le query maxAttempts 0 0
  · have := pollAux_times_shape query maxAttempts 0 0
    simpa [pollCallStatus] using this
  · exact pollAux_commits_le query maxAttempts 0 0
  · intro hq
    exact pollAux_all_pending query hq maxAttempts 0 0 rfl
  · intro j o hj hpend hq ho
    have := pollAux_first_nonpending query j o hj hpend hq ho maxAttempts 0 0
      rfl (Nat.zero_le j)
    simpa [pollCallStatus] using this

/-- A concrete status sequence: pending once, then answered. -/
def sampleQuery : Nat → PollResult := fun k =>
  if k = 0 then PollResult.ok (some Outcome.pending)
  else PollResult.ok (some Outcome.answered)

/-- A concrete status sequence that stays pending forever. -/
def samplePendingQuery : Nat → PollResult := fun _ =>
  PollResult.ok (some Outcome.pending)

/-- Witness for C5: the answered-at-step-1 run stops after two queries with
one commit; the always-pending run uses all 30 queries and commits
nothing. -/
theorem pollCallStatus_bounded_witness :
    (pollCallStatus sampleQuery).times.length ≤ 30 ∧
    pollCallStatus sampleQuery =
      { times := (List.range 2).map (fun k => 2 * k),
        commits := [Outcome.answered] } ∧
    (pollCallStatus samplePendingQuery).times.length = 30 ∧
    (pollCallStatus samplePendingQuery).commits = [] :=
  ⟨(pollCallStatus_bounded sampleQuery).1,
   (pollCallStatus_bounded sampleQuery).2.2.2.2 1 Outcome.answered
      (by omega)
      (fun k hk => by
        have hk0 : k = 0 := by omega
        subst hk0
        rfl)
      rfl (by decide),
   ((pollCallStatus_bounded samplePendingQuery).2.2.2.1
      (fun k _ => rfl)).1,
   ((pollCallStatus_bounded samplePendingQuery).2.2.2.1
      (fun k _ => rfl)).2⟩

attribute [ext] SRAcc PartAcc

/-- The service-request id accumulated by the `basedOn` loop does not depend
on the fetcher or on the code/category accumulator fields. -/
theorem srStep_id (env : FhirEnv) (acc : SRAcc) (b : FhirReference) :
    (srStep env acc b).serviceRequestId =
      if strIncludes (b.reference.getD "") "ServiceRequest" then
        some (extractIdFromReference (b.reference.getD ""))
      else acc.serviceRequestId := by
  unfold srStep
  by_cases h : strIncludes (b.reference.getD "") "ServiceRequest" = true
  · simp only [if_pos h]
    cases env.fetchServiceRequest (extractIdFromReference (b.reference.getD "")) with
    | ok sr => rfl
    | error e => rfl
  · simp only [Bool.not_eq_true] at h
    simp [h]

/-- Two runs of the `basedOn` loop under different fetchers accumulate the
same service-request id. -/
theorem sr_id_congr (env env2 : FhirEnv) :
    ∀ (bs : List FhirReference) (acc acc2 : SRAcc),
      acc.serviceRequestId = acc2.serviceRequestId →
      (bs.foldl (srStep env) acc).serviceRequestId =
        (bs.foldl (srStep env2) acc2).serviceRequestId := by
  intro bs
  induction bs with
  | nil => intro acc acc2 h; exact h
  | cons b rest ih =>
      intro acc acc2 h
      simp only [List.foldl_cons]
      refine ih _ _ ?_
      rw [srStep_id, srStep_id]
      by_cases hb : strIncludes (b.reference.getD "") "ServiceRequest" = true
      · simp [hb]
      · simp only [Bool.not_eq_true] at hb
        simp [hb, h]

/-- When every service-request fetch fails, the `basedOn` loop never assigns
a code or a category. -/
theorem sr_err (env' : FhirEnv)
    (hsr : ∀ r, env'.fetchServiceRequest r = Except.error ()) :
    ∀ (bs : List FhirReference) (acc : SRAcc),
      acc.serviceRequestCode = none → acc.serviceRequestCategory = none →
      (bs.foldl (srStep env') acc).serviceRequestCode = none ∧
        (bs.foldl (srStep env') acc).serviceRequestCategory = none := by
  intro bs
  induction bs with
  | nil => intro acc h1 h2; exact ⟨h1, h2⟩
  | cons b rest ih =>
      intro acc h1 h2
      simp only [List.foldl_cons]
      refine ih _ ?_ ?_
      · unfold srStep
        by_cases hb : strIncludes (b.reference.getD "") "ServiceRequest" = true
        · simp only [if_pos hb, hsr]
          exact h1
        · simp only [Bool.not_eq_true] at hb
          simp [hb, h1]
      · unfold srStep
        by_cases hb : strIncludes (b.reference.getD "") "ServiceRequest" = true
        · simp only [if_pos hb, hsr]
          exact h2
        · simp only [Bool.not_eq_true] at hb
          simp [hb, h2]

/-- Uniform service-request failure: same id as a healthy run, no code, no
category. -/
theorem resolveSR_err (env env' : FhirEnv)
    (hsr : ∀ r, env'.fetchServiceRequest r = Except.error ())
    (bs : List FhirReference) :
    resolveServiceRequestFields env' bs =
      { serviceRequestId := (resolveServiceRequestFields env bs).serviceRequestId,
        serviceRequestCode := none, serviceRequestCategory := none } := by
  have h1 : (resolveServiceRequestFields env' bs).serviceRequestId =
      (resolveServiceRequestFields env bs).serviceRequestId :=
    sr_id_congr env' env bs _ _ rfl
  have h23 := sr_err env' hsr bs
    { serviceRequestId := none, serviceRequestCode := none,
      serviceRequestCategory := none } rfl rfl
  exact SRAcc.ext h1 h23.1 h23.2

/-- The participant loop step depends on the environment only through the
patient, practitioner-role and organization fetchers. -/
theorem participantStep_eq (env env2 : FhirEnv)
    (h1 : env2.fetchPatient = env.fetchPatient)
    (h2 : env2.fetchPractitionerRole = env.fetchPractitionerRole)
    (h3 : env2.fetchOrganization = env.fetchOrganization) :
    participantStep env2 = participantStep env := by
  funext acc p
  simp only [participantStep, h1, h2, h3]

/-- One participant step under a uniformly failing patient fetcher: only the
patient name, phone and upsert are lost; everything else matches the healthy
step. -/
theorem participantStep_patient_err (env env' : FhirEnv)
    (hR : env'.fetchPractitionerRole = env.fetchPractitionerRole)
    (hO : env'.fetchOrganization = env.fetchOrganization)
    (hP : ∀ r, env'.fetchPatient r = Except.error ())
    (acc : PartAcc) (p : Participant) :
    participantStep env'
        { acc with patientName := none, patientPhone := none, patientUpserts := [] } p =
      { participantStep env acc p with
        patientName := none, patientPhone := none, patientUpserts := [] } := by
  simp only [participantStep, hR, hO, hP]
  by_cases h1 : p.actor.bind Actor.type = some "Patient"
  · have h2 : ¬ (p.actor.bind Actor.type = some "PractitionerRole") := by
      rw [h1]; simp
    simp only [if_pos h1, if_neg h2]
    cases henv : env.fetchPatient
        (extractIdFromReference ((p.actor.bind Actor.reference).getD "")) with
    | ok patient => rfl
    | error e => rfl
  · by_cases h2 : p.actor.bind Actor.type = some "PractitionerRole"
    · simp only [if_neg h1, if_pos h2]
      cases henv : env.fetchPractitionerRole
          (extractIdFromReference ((p.actor.bind Actor.reference).getD "")) with
      | ok pr =>
          by_cases h3 : (pr.organization.bind FhirReference.reference).getD "" ≠ ""
          · simp only [if_pos h3]
            cases horg : env.fetchOrganization
                (extractIdFromReference
                  ((pr.organization.bind FhirReference.reference).getD "")) with
            | ok org => rfl
            | error e => rfl
          · simp only [if_neg h3]
      | error e => rfl
    · simp only [if_neg h1, if_neg h2]

/-- One participant step under a uniformly failing practitioner-role fetcher:
only the organization id and name are lost. -/
theorem participantStep_pr_err (env env' : FhirEnv)
    (hP : env'.fetchPatient = env.fetchPatient)
    (hO : env'.fetchOrganization = env.fetchOrganization)
    (hR : ∀ r, env'.fetchPractitionerRole r = Except.error ())
    (acc : PartAcc) (p : Participant) :
    participantStep env'
        { acc with organizationId := none, organizationName := none } p =
      { participantStep env acc p with
        organizationId := none, organizationName := none } := by
  simp only [participantStep, hP, hO, hR]
  by_cases h1 : p.actor.bind Actor.type = some "Patient"
  · have h2 : ¬ (p.actor.bind Actor.type = some "PractitionerRole") := by
      rw [h1]; simp
    simp only [if_pos h1, if_neg h2]
    cases henv : env.fetchPatient
        (extractIdFromReference ((p.actor.bind Actor.reference).getD "")) with
    | ok patient => rfl
    | error e => rfl
  · by_cases h2 : p.actor.bind Actor.type = some "PractitionerRole"
    · simp only [if_neg h1, if_pos h2]
      cases henv : env.fetchPractitionerRole
          (extractIdFromReference ((p.actor.bind Actor.reference).getD "")) with
      | ok pr =>
          by_cases h3 : (pr.organization.bind FhirReference.reference).getD "" ≠ ""
          · simp only [if_pos h3]
            cases horg : env.fetchOrganization
                (extractIdFromReference
                  ((pr.organization.bind FhirReference.reference).getD "")) with
            | ok org => rfl
            | error e => rfl
          · simp only [if_neg h3]
      | error e => rfl
    · simp only [if_neg h1, if_neg h2]

/-- One participant step under a uniformly failing organization fetcher:
only the organization name is lost (the id was recorded before the inner
`try`). -/
theorem participantStep_org_err (env env' : FhirEnv)
    (hP : env'.fetchPatient = env.fetchPatient)
    (hR : env'.fetchPractitionerRole = env.fetchPractitionerRole)
    (hG : ∀ r, env'.fetchOrganization r = Except.error ())
    (acc : PartAcc) (p : Participant) :
    participantStep env' { acc with organizationName := none } p =
      { participantStep env acc p with organizationName := none } := by
  simp only [participantStep, hP, hR, hG]
  by_cases h1 : p.actor.bind Actor.type = some "Patient"
  · have h2 : ¬ (p.actor.bind Actor.type = some "PractitionerRole") := by
      rw [h1]; simp
    simp only [if_pos h1, if_neg h2]
    cases henv : env.fetchPatient
        (extractIdFromReference ((p.actor.bind Actor.reference).getD "")) with
    | ok patient => rfl
    | error e => rfl
  · by_cases h2 : p.actor.bind Actor.type = some "PractitionerRole"
    · simp only [if_neg h1, if_pos h2]
      cases henv : env.fetchPractitionerRole
          (extractIdFromReference ((p.actor.bind Actor.reference).getD "")) with
      | ok pr =>
          by_cases h3 : (pr.organization.bind FhirReference.reference).getD "" ≠ ""
          · simp only [if_pos h3]
            cases horg : env.fetchOrganization
                (extractIdFromReference
                  ((pr.organization.bind FhirReference.reference).getD "")) with
            | ok org => rfl
            | error e => rfl
          · simp only [if_neg h3]
      | error e => rfl
    · simp only [if_neg h1, if_neg h2]

/-- Folding the patient-failure relation over the whole participant list. -/
theorem participants_patient_err (env env' : FhirEnv)
    (hR : env'.fetchPractitionerRole = env.fetchPractitionerRole)
    (hO : env'.fetchOrganization = env.fetchOrganization)
    (hP : ∀ r, env'.fetchPatient r = Except.error ()) :
    ∀ (ps : List Participant) (acc : PartAcc),
      ps.foldl (participantStep env')
          { acc with patientName := none, patientPhone := none, patientUpserts := [] } =
        { ps.foldl (participantStep env) acc with
          patientName := none, patientPhone := none, patientUpserts := [] } := by
  intro ps
  induction ps with
  | nil => intro acc; rfl
  | cons p rest ih =>
      intro acc
      simp only [List.foldl_cons]
      rw [participantStep_patient_err env env' hR hO hP acc p, ih]

/-- Folding the practitioner-role-failure relation over the participants. -/
theorem participants_pr_err (env env' : FhirEnv)
    (hP : env'.fetchPatient = env.fetchPatient)
    (hO : env'.fetchOrganization = env.fetchOrganization)
    (hR : ∀ r, env'.fetchPractitionerRole r = Except.error ()) :
    ∀ (ps : List Participant) (acc : PartAcc),
      ps.foldl (participantStep env')
          { acc with organizationId := none, organizationName := none } =
        { ps.foldl (participantStep env) acc with
          organizationId := none, organizationName := none } := by
  intro ps
  induction ps with
  | nil => intro acc; rfl
  | cons p rest ih =>
      intro acc
      simp only [List.foldl_cons]
      rw [participantStep_pr_err env env' hP hO hR acc p, ih]

/-- Folding the organization-failure relation over the participants. -/
theorem participants_org_err (env env' : FhirEnv)
    (hP : env'.fetchPatient = env.fetchPatient)
    (hR : env'.fetchPractitionerRole = env.fetchPractitionerRole)
    (hG : ∀ r, env'.fetchOrganization r = Except.error ()) :
    ∀ (ps : List Participant) (acc : PartAcc),
      ps.foldl (participantStep env') { acc with organizationName := none } =
        { ps.foldl (participantStep env) acc with organizationName := none } := by
  intro ps
  induction ps with
  | nil => intro acc; rfl
  | cons p rest ih =>
      intro acc
      simp only [List.foldl_cons]
      rw [participantStep_org_err env env' hP hR hG acc p, ih]

/-- The `basedOn` loop step depends on the environment only through the
service-request fetcher. -/
theorem srStep_eq (env env2 : FhirEnv)
    (h : env2.fetchServiceRequest = env.fetchServiceRequest) :
    srStep env2 = srStep env := by
  funext acc b
  simp only [srStep, h]

/-- Entry processing under uniform service-request failure: the appointment
args only lose code and category; the patient upserts are untouched. -/
theorem processEntry_sr_err (env env' : FhirEnv)
    (hP : env'.fetchPatient = env.fetchPatient)
    (hR : env'.fetchPractitionerRole = env.fetchPractitionerRole)
    (hO : env'.fetchOrganization = env.fetchOrganization)
    (hsr : ∀ r, env'.fetchServiceRequest r = Except.error ())
    (e : AppointmentResource) :
    processEntry env' e =
      ({ (processEntry env e).1 with
          serviceRequestCode := none, serviceRequestCategory := none },
        (processEntry env e).2) := by
  have hparts : resolveParticipants env' e.participant =
      resolveParticipants env e.participant := by
    unfold resolveParticipants
    rw [participantStep_eq env env' hP hR hO]
  have hsr' := resolveSR_err env env' hsr e.basedOn
  simp only [processEntry, hparts, hsr']

/-- Entry processing under uniform patient-fetch failure: the appointment
args only lose patient name and phone, and no patient upsert happens. -/
theorem processEntry_patient_err (env env' : FhirEnv)
    (hS : env'.fetchServiceRequest = env.fetchServiceRequest)
    (hR : env'.fetchPractitionerRole = env.fetchPractitionerRole)
    (hO : env'.fetchOrganization = env.fetchOrganization)
    (hP : ∀ r, env'.fetchPatient r = Except.error ())
    (e : AppointmentResource) :
    processEntry env' e =
      ({ (processEntry env e).1 with
          patientName := none, patientPhone := none }, []) := by
  have hsr2 : resolveServiceRequestFields env' e.basedOn =
      resolveServiceRequestFields env e.basedOn := by
    unfold resolveServiceRequestFields
    rw [srStep_eq env env' hS]
  have hparts2 : resolveParticipants env' e.participant =
      { resolveParticipants env e.participant with
        patientName := none, patientPhone := none, patientUpserts := [] } :=
    participants_patient_err env env' hR hO hP e.participant
      { patientId := none, patientName := none, patientPhone := none,
        organizationId := none, organizationName := none, patientUpserts := [] }
  simp only [processEntry, hsr2, hparts2]

/-- Entry processing under uniform practitioner-role failure: the
appointment args only lose the organization id and name. -/
theorem processEntry_pr_err (env env' : FhirEnv)
    (hS : env'.fetchServiceRequest = env.fetchServiceRequest)
    (hP : env'.fetchPatient = env.fetchPatient)
    (hO : env'.fetchOrganization = env.fetchOrganization)
    (hR : ∀ r, env'.fetchPractitionerRole r = Except.error ())
    (e : AppointmentResource) :
    processEntry env' e =
      ({ (processEntry env e).1 with
          organizationId := none, organizationName := none },
        (processEntry env e).2) := by
  have hsr2 : resolveServiceRequestFields env' e.basedOn =
      resolveServiceRequestFields env e.basedOn := by
    unfold resolveServiceRequestFields
    rw [srStep_eq env env' hS]
  have hparts2 : resolveParticipants env' e.participant =
      { resolveParticipants env e.participant with
        organizationId := none, organizationName := none } :=
    participants_pr_err env env' hP hO hR e.participant
      { patientId := none, patientName := none, patientPhone := none,
        organizationId := none, organizationName := none, patientUpserts := [] }
  simp only [processEntry, hsr2, hparts2]

/-- Entry processing under uniform organization-fetch failure: the
appointment args only lose the organization name. -/
theorem processEntry_org_err (env env' : FhirEnv)
    (hS : env'.fetchServiceRequest = env.fetchServiceRequest)
    (hP : env'.fetchPatient = env.fetchPatient)
    (hR : env'.fetchPractitionerRole = env.fetchPractitionerRole)
    (hG : ∀ r, env'.fetchOrganization r = Except.error ())
    (e : AppointmentResource) :
    processEntry env' e =
      ({ (processEntry env e).1 with organizationName := none },
        (processEntry env e).2) := by
  have hsr2 : resolveServiceRequestFields env' e.basedOn =
      resolveServiceRequestFields env e.basedOn := by
    unfold resolveServiceRequestFields
    rw [srStep_eq env env' hS]
  have hparts2 : resolveParticipants env' e.participant =
      { resolveParticipants env e.participant with organizationName := none } :=
    participants_org_err env env' hP hR hG e.participant
      { patientId := none, patientName := none, patientPhone := none,
        organizationId := none, organizationName := none, patientUpserts := [] }
  simp only [processEntry, hsr2, hparts2]

/-- The entry loop upserts one appointment per entry, whatever the
environment does. -/
theorem syncFhirData_foldl_length (env : FhirEnv) :
    ∀ (entries : List AppointmentResource) (r : SyncResult),
      (entries.foldl (fun r e =>
        let pe := processEntry env e
        { apptUpserts := r.apptUpserts ++ [pe.1],
          patientUpserts := r.patientUpserts ++ pe.2 }) r).apptUpserts.length =
        r.apptUpserts.length + entries.length := by
  intro entries
  induction entries with
  | nil => intro r; simp
  | cons e rest ih =>
      intro r
      simp only [List.foldl_cons]
      rw [ih]
      simp only [List.length_append, List.length_cons, List.length_nil]
      omega

/-- C6: in the resolver batch every appointment entry is upserted whatever
the nested fetches do, and a uniform failure of any one nested fetcher
(service-request, patient, practitioner-role, organization) for an entry
leaves exactly the corresponding appointment fields unset while all other
resolved fields (and, except for the patient fetch itself, the patient
upserts) are unaffected. -/
theorem resolver_nested_fetch_fault_tolerance :
    (∀ (env : FhirEnv) (entries : List AppointmentResource),
      (syncFhirData env entries).apptUpserts.length = entries.length) ∧
    (∀ (env env' : FhirEnv) (e : AppointmentResource),
      env'.fetchPatient = env.fetchPatient →
      env'.fetchPractitionerRole = env.fetchPractitionerRole →
      env'.fetchOrganization = env.fetchOrganization →
      (∀ r, env'.fetchServiceRequest r = Except.error ()) →
      processEntry env' e =
        ({ (processEntry env e).1 with
            serviceRequestCode := none, serviceRequestCategory := none },
          (processEntry env e).2)) ∧
    (∀ (env env' : FhirEnv) (e : AppointmentResource),
      env'.fetchServiceRequest = env.fetchServiceRequest →
      env'.fetchPractitionerRole = env.fetchPractitionerRole →
      env'.fetchOrganization = env.fetchOrganization →
      (∀ r, env'.fetchPatient r = Except.error ()) →
      processEntry env' e =
        ({ (processEntry env e).1 with
            patientName := none, patientPhone := none }, [])) ∧
    (∀ (env env' : FhirEnv) (e : AppointmentResource),
      env'.fetchServiceRequest = env.fetchServiceRequest →
      env'.fetchPatient = env.fetchPatient →
      env'.fetchOrganization = env.fetchOrganization →
      (∀ r, env'.fetchPractitionerRole r = Except.error ()) →
      processEntry env' e =
        ({ (processEntry env e).1 with
            organizationId := none, organizationName := none },
          (processEntry env e).2)) ∧
    (∀ (env env' : FhirEnv) (e : AppointmentResource),
      env'.fetchServiceRequest = env.fetchServiceRequest →
      env'.fetchPatient = env.fetchPatient →
      env'.fetchPractitionerRole = env.fetchPractitionerRole →
      (∀ r, env'.fetchOrganization r = Except.error ()) →
      processEntry env' e =
        ({ (processEntry env e).1 with organizationName := none },
          (processEntry env e).2)) := by
  refine ⟨?_, ?_, ?_, ?_, ?_⟩
  · intro env entries
    unfold syncFhirData
    rw [syncFhirData_foldl_length env entries]
    simp
  · intro env env' e hP hR hO hsr
    exact processEntry_sr_err env env' hP hR hO hsr e
  · intro env env' e hS hR hO hP
    exact processEntry_patient_err env env' hS hR hO hP e
  · intro env env' e hS hP hO hR
    exact processEntry_pr_err env env' hS hP hO hR e
  · intro env env' e hS hP hR hG
    exact processEntry_org_err env env' hS hP hR hG e

/-- A concrete service-request resource. -/
def sampleSR : ServiceRequestResource :=
  { code := some { text := some "Ecografia", coding := [] },
    category := [{ text := none, coding := [{ display := some "Imagen" }] }] }

/-- A concrete patient resource. -/
def samplePatientRes : PatientResource :=
  { name := [{ given := ["Ana"], family := some "Soto" }],
    telecom := [{ system := some "phone", value := some "912345678" }],
    identifier := [{ value := some "1-9" }],
    gender := some "female", birthDate := some "1990-01-01" }

/-- A concrete practitioner-role resource linked to an organization. -/
def samplePR : PractitionerRoleResource :=
  { organization := some { reference := some "Organization/org1" } }

/-- A concrete organization resource. -/
def sampleOrg : OrganizationResource :=
  { name := some "Hospital Central" }

/-- An environment in which every nested fetch succeeds. -/
def envOkW : FhirEnv :=
  { fetchServiceRequest := fun _ => Except.ok sampleSR
    fetchPatient := fun _ => Except.ok samplePatientRes
    fetchPractitionerRole := fun _ => Except.ok samplePR
    fetchOrganization := fun _ => Except.ok sampleOrg }

/-- The same environment with the service-request fetch failing. -/
def envSRFail : FhirEnv :=
  { envOkW with fetchServiceRequest := fun _ => Except.error () }

/-- The same environment with the patient fetch failing. -/
def envPatFail : FhirEnv :=
  { envOkW with fetchPatient := fun _ => Except.error () }

/-- The same environment with the practitioner-role fetch failing. -/
def envPRFail : FhirEnv :=
  { envOkW with fetchPractitionerRole := fun _ => Except.error () }

/-- The same environment with the organization fetch failing. -/
def envOrgFail : FhirEnv :=
  { envOkW with fetchOrganization := fun _ => Except.error () }

/-- A concrete appointment entry with one service request, one patient
participant and one practitioner-role participant. -/
def sampleEntry : AppointmentResource :=
  { id := "appt-1", status := "booked", start := "2026-01-01T10:00:00",
    end_ := "2026-01-01T10:30:00", created := none, extension := [],
    serviceType := [],
    basedOn := [{ reference := some "ServiceRequest/sr1" }],
    participant :=
      [{ actor := some { type := some "Patient", reference := some "Patient/pat1" } },
       { actor := some { type := some "PractitionerRole",
                          reference := some "PractitionerRole/pr1" } }] }

/-- Witness for C6 at the concrete entry and environments. -/
theorem resolver_nested_fetch_fault_tolerance_witness :
    (syncFhirData envOkW [sampleEntry]).apptUpserts.length = 1 ∧
    processEntry envSRFail sampleEntry =
      ({ (processEntry envOkW sampleEntry).1 with
          serviceRequestCode := none, serviceRequestCategory := none },
        (processEntry envOkW sampleEntry).2) ∧
    processEntry envPatFail sampleEntry =
      ({ (processEntry envOkW sampleEntry).1 with
          patientName := none, patientPhone := none }, []) ∧
    processEntry envPRFail sampleEntry =
      ({ (processEntry envOkW sampleEntry).1 with
          organizationId := none, organizationName := none },
        (processEntry envOkW sampleEntry).2) ∧
    processEntry envOrgFail sampleEntry =
      ({ (processEntry envOkW sampleEntry).1 with organizationName := none },
        (processEntry envOkW sampleEntry).2) :=
  ⟨resolver_nested_fetch_fault_tolerance.1 envOkW [sampleEntry],
   resolver_nested_fetch_fault_tolerance.2.1 envOkW envSRFail sampleEntry
      rfl rfl rfl (fun _ => rfl),
   resolver_nested_fetch_fault_tolerance.2.2.1 envOkW envPatFail sampleEntry
      rfl rfl rfl (fun _ => rfl),
   resolver_nested_fetch_fault_tolerance.2.2.2.1 envOkW envPRFail sampleEntry
      rfl rfl rfl (fun _ => rfl),
   resolver_nested_fetch_fault_tolerance.2.2.2.2 envOkW envOrgFail sampleEntry
      rfl rfl rfl (fun _ => rfl)⟩
